import Mathlib

/-!
Verification development for the GCS-to-BigQuery spreadsheet ingestion job
(src/main.py of the etl-gcp-function-tmabrasil repository).

Modelling conventions (shallow embedding):
* A spreadsheet cell is `Option String`: `none` models a blank cell (pandas NaN),
  `some s` models a cell whose Python `str()` image is `s`.
* A sheet / DataFrame is a `List QRow` (rows of cells) together with an explicit
  column count `ncols` mirroring `df.shape[1]`; `pd.read_excel` pads short rows
  with NaN, which `cellAt` reproduces by returning `none` past the end of a row.
* The BigQuery destination table is a `List QRow`; SQL `DELETE ... WHERE c = @x`
  does not match NULL values of `c`, which the embedding reproduces.
* External collaborators (GCS download, BigQuery client calls) are outside the
  model; their results appear as explicit parameters.
-/

/-- The characters removed by Python `str.strip()` (ASCII whitespace repertoire;
the rare non-ASCII Unicode spaces are outside the model). -/
def isPySpace (c : Char) : Bool :=
  c == ' ' || c == '\t' || c == '\n' || c == '\r' || c == '\x0b' || c == '\x0c'

/-- Python `str.strip()` on a character list. -/
def pyStripL (cs : List Char) : List Char :=
  ((cs.dropWhile isPySpace).reverse.dropWhile isPySpace).reverse

/-- Python `str.strip()`. -/
def pyStrip (s : String) : String :=
  String.mk (pyStripL s.toList)

/-- A spreadsheet / DataFrame cell: `none` is blank (NaN). -/
abbrev Cell := Option String

/-- A row of cells. -/
abbrev QRow := List Cell

/-- The `to_str_or_none` (src/main.py lines 54-70): None and NaN become None,
otherwise `str(v).strip()`, with the empty string mapped to None.  In the
embedding a non-blank cell already carries its `str()` image. -/
def toStrOrNone (v : Cell) : Cell :=
  match v with
  | none => none
  | some s => let t := pyStrip s; if t = "" then none else some t

/-- Cell of row `r` at column `i`; `none` past the end of the row, matching the
NaN padding `pd.read_excel` applies to short rows. -/
def cellAt (r : QRow) (i : Nat) : Cell :=
  (r[i]?).getD none

/-- The `df.dropna(how="all")`: keep the rows having at least one non-blank cell. -/
def dropAllNaRows (rows : List QRow) : List QRow :=
  rows.filter (fun r => r.any (fun c => c.isSome))

/-- The `QGC_COLUMNS` (src/main.py lines 47-50): the 11 STRING columns of the
`qgc` destination table. -/
def QGC_COLUMNS : List String :=
  ["GRUPO", "EMPRESA", "FONTE", "CLASSE", "SUBCLASSE", "CREDOR",
   "MOEDA", "VALOR", "DATA", "NOMEARQUIVO", "DATAIMPLEMENTACAO"]

/-- The `QGC_BASE_CNT` (src/main.py line 51): the 9 data columns GRUPO..DATA. -/
def QGC_BASE_CNT : Nat := 9

/-- src/main.py lines 340-345: read without header, drop fully-blank rows and
then discard the first remaining row (the human header). -/
def qgcPrep (grid : List QRow) : List QRow :=
  (dropAllNaRows grid).drop 1

/-- src/main.py lines 347-348: `df.dropna(axis=1, how="all")` — the indices of
the columns that keep at least one non-blank value over the prepared rows. -/
def qgcKeep (grid : List QRow) (ncols : Nat) : List Nat :=
  (List.range ncols).filter (fun i => (qgcPrep grid).any (fun r => (cellAt r i).isSome))

/-- src/main.py lines 350-361 applied to one row: project the row onto the kept
columns, insert a blank SUBCLASSE at index 4 when exactly 8 columns survive,
then pad with blanks / truncate on the right to exactly the 9 data columns. -/
def qgcAlignedRow (keep : List Nat) (r : QRow) : QRow :=
  let r3 := keep.map (cellAt r)
  let r4 := if keep.length == 8 then r3.take 4 ++ none :: r3.drop 4 else r3
  let w4 := if keep.length == 8 then 9 else keep.length
  (r4 ++ List.replicate (QGC_BASE_CNT - w4) none).take QGC_BASE_CNT

/-- src/main.py lines 339-371: the full ledger-row materialization — prepared
rows aligned to the 9 data columns, the NOMEARQUIVO and DATAIMPLEMENTACAO
control cells appended (lines 362-363), and `to_str_or_none` applied to every
cell of every column (lines 370-371). -/
def qgcMaterialize (grid : List QRow) (ncols : Nat) (base now : String) : List QRow :=
  (qgcPrep grid).map
    (fun r => (qgcAlignedRow (qgcKeep grid ncols) r ++ [some base, some now]).map toStrOrNone)

/-- The NOMEARQUIVO cell of a materialized row (column index 9). -/
def rowNome (r : QRow) : Cell :=
  cellAt r 9

/-- src/main.py lines 396-408: the scoped-replace transaction —
`DELETE FROM qgc WHERE NOMEARQUIVO = @file` followed by inserting the staged
rows.  SQL equality never matches a NULL NOMEARQUIVO, so NULL-keyed rows
survive the delete. -/
def scopedReplace (table : List QRow) (file : String) (newRows : List QRow) : List QRow :=
  table.filter (fun r => !(rowNome r == some file)) ++ newRows

/-- One ledger ingestion of an object with basename `base` at timestamp `now`:
stage the materialized rows, then scoped-replace them into the table
(src/main.py `process_qgc_incremental`). -/
def ingestQgc (table : List QRow) (grid : List QRow) (ncols : Nat) (base now : String) :
    List QRow :=
  scopedReplace table base (qgcMaterialize grid ncols base now)

/-- The `ensure_qgc_table` (src/main.py lines 309-323) acting on the schema, given
as the existing column-name list (or `none` when the table does not exist):
append the fixed QGC columns that are missing; on NotFound create the table
with exactly the fixed QGC columns. -/
def ensureQgcSchema (existing : Option (List String)) : List String :=
  match existing with
  | none => QGC_COLUMNS
  | some ex => ex ++ QGC_COLUMNS.filter (fun c => !ex.contains c)

-- Basic shape lemmas about the ledger pipeline.

theorem qgcAlignedRow_length (keep : List Nat) (r : QRow) :
    (qgcAlignedRow keep r).length = 9 := by
  unfold qgcAlignedRow QGC_BASE_CNT
  by_cases h : keep.length = 8
  · simp [h, List.length_take, List.length_append, List.length_map]
  · simp only [beq_iff_eq, h, if_false]
    simp [List.length_take, List.length_append, List.length_map]
    omega

theorem qgcMaterialize_row_length (grid : List QRow) (ncols : Nat) (base now : String)
    (m : QRow) (hm : m ∈ qgcMaterialize grid ncols base now) : m.length = 11 := by
  unfold qgcMaterialize at hm
  rcases List.mem_map.mp hm with ⟨r, _, rfl⟩
  simp [List.length_append, qgcAlignedRow_length]

theorem qgcMaterialize_rowNome (grid : List QRow) (ncols : Nat) (base now : String)
    (m : QRow) (hm : m ∈ qgcMaterialize grid ncols base now) :
    rowNome m = toStrOrNone (some base) := by
  unfold qgcMaterialize at hm
  rcases List.mem_map.mp hm with ⟨r, _, rfl⟩
  have hlen : (qgcAlignedRow (qgcKeep grid ncols) r).length = 9 := qgcAlignedRow_length _ _
  unfold rowNome cellAt
  rw [List.getElem?_map, List.getElem?_append_right (by omega)]
  simp [hlen]

theorem qgcMaterialize_controls (grid : List QRow) (ncols : Nat) (base now : String)
    (m : QRow) (hm : m ∈ qgcMaterialize grid ncols base now) :
    m[9]? = some (toStrOrNone (some base)) ∧ m[10]? = some (toStrOrNone (some now)) := by
  unfold qgcMaterialize at hm
  rcases List.mem_map.mp hm with ⟨r, _, rfl⟩
  have hlen : (qgcAlignedRow (qgcKeep grid ncols) r).length = 9 := qgcAlignedRow_length _ _
  constructor
  · rw [List.getElem?_map, List.getElem?_append_right (by omega)]
    simp [hlen]
  · rw [List.getElem?_map, List.getElem?_append_right (by omega)]
    simp [hlen]

theorem qgcMaterialize_rowNome_of_clean (grid : List QRow) (ncols : Nat) (base now : String)
    (hF1 : pyStrip base = base) (hF2 : base ≠ "")
    (m : QRow) (hm : m ∈ qgcMaterialize grid ncols base now) :
    rowNome m = some base := by
  rw [qgcMaterialize_rowNome grid ncols base now m hm]
  simp [toStrOrNone, hF1, hF2]

/-- Claim **C1** (amended: restricted to file names equal to their own whitespace-strip —
`to_str_or_none` strips the stored NOMEARQUIVO, see the counterexample).
After a ledger ingestion of `F`, the qgc table contains under NOMEARQUIVO = `F`
exactly the rows materialized by that ingestion, whatever the prior table
contents (so re-ingesting `F` with new content leaves none of the old rows),
and repeating an ingestion with identical materialized content (same grid and
timestamp) leaves the table unchanged. -/
theorem c1_scoped_replace_latest_only (F : String) (hF1 : pyStrip F = F) (hF2 : F ≠ "")
    (table grid : List QRow) (ncols : Nat) (now : String) :
    ((ingestQgc table grid ncols F now).filter (fun r => rowNome r == some F)
        = qgcMaterialize grid ncols F now)
  ∧ ingestQgc (ingestQgc table grid ncols F now) grid ncols F now
      = ingestQgc table grid ncols F now := by
  have hnew : ∀ m ∈ qgcMaterialize grid ncols F now, rowNome m = some F :=
    fun m hm => qgcMaterialize_rowNome_of_clean grid ncols F now hF1 hF2 m hm
  constructor
  · unfold ingestQgc scopedReplace
    rw [List.filter_append]
    have h1 : (table.filter (fun r => !(rowNome r == some F))).filter
        (fun r => rowNome r == some F) = [] := by
      rw [List.filter_filter]
      apply List.filter_eq_nil_iff.mpr
      intro a _
      simp only [Bool.and_eq_true, Bool.not_eq_true']
      rintro ⟨h, h'⟩
      rw [h] at h'
      exact absurd h' (by simp)
    have h2 : (qgcMaterialize grid ncols F now).filter (fun r => rowNome r == some F)
        = qgcMaterialize grid ncols F now := by
      apply List.filter_eq_self.mpr
      intro m hm
      simp [hnew m hm]
    rw [h1, h2, List.nil_append]
  · unfold ingestQgc scopedReplace
    rw [List.filter_append, List.filter_filter]
    have h1 : (qgcMaterialize grid ncols F now).filter
        (fun r => !(rowNome r == some F)) = [] := by
      apply List.filter_eq_nil_iff.mpr
      intro m hm
      simp [hnew m hm]
    have h2 : table.filter (fun r => !(rowNome r == some F) && !(rowNome r == some F))
        = table.filter (fun r => !(rowNome r == some F)) := by
      apply List.filter_congr
      intro r _
      exact Bool.and_self _
    rw [h1, h2, List.append_nil]

/-- Witness for C1 at a concrete ingestion: file `a.xlsx`, a one-data-row grid,
a prior table holding a row of an earlier ingestion of the same file. -/
theorem c1_scoped_replace_latest_only_witness :
    ((ingestQgc [[some "old", none, none, none, none, none, none, none, none,
          some "a.xlsx", some "T0"]]
        [[some "h"], [some "A"]] 1 "a.xlsx" "T1").filter (fun r => rowNome r == some "a.xlsx")
        = qgcMaterialize [[some "h"], [some "A"]] 1 "a.xlsx" "T1")
  ∧ ingestQgc (ingestQgc [[some "old", none, none, none, none, none, none, none, none,
          some "a.xlsx", some "T0"]] [[some "h"], [some "A"]] 1 "a.xlsx" "T1")
        [[some "h"], [some "A"]] 1 "a.xlsx" "T1"
      = ingestQgc [[some "old", none, none, none, none, none, none, none, none,
          some "a.xlsx", some "T0"]] [[some "h"], [some "A"]] 1 "a.xlsx" "T1" :=
  c1_scoped_replace_latest_only "a.xlsx" (by decide) (by decide)
    [[some "old", none, none, none, none, none, none, none, none, some "a.xlsx", some "T0"]]
    [[some "h"], [some "A"]] 1 "T1"

/-- Claim **C1, counterexample to the claim as stated**: for the legal file name
`" a.xlsx"` (leading space) the stored NOMEARQUIVO is the stripped `"a.xlsx"`,
so (i) the rows found under NOMEARQUIVO = `" a.xlsx"` after the latest
ingestion are not the rows that ingestion materialized, and (ii) after
re-ingesting the file with new content, a row of the earlier ingestion is
still present in the table — a union of old and new. -/
theorem c1_counterexample :
    ((ingestQgc (ingestQgc [] [[some "h"], [some "A"]] 1 " a.xlsx" "T1")
        [[some "h"], [some "B"]] 1 " a.xlsx" "T2").filter
          (fun r => rowNome r == some " a.xlsx")
        ≠ qgcMaterialize [[some "h"], [some "B"]] 1 " a.xlsx" "T2")
  ∧ ([some "A", none, none, none, none, none, none, none, none, some "a.xlsx", some "T1"]
        ∈ qgcMaterialize [[some "h"], [some "A"]] 1 " a.xlsx" "T1")
  ∧ ([some "A", none, none, none, none, none, none, none, none, some "a.xlsx", some "T1"]
        ∈ ingestQgc (ingestQgc [] [[some "h"], [some "A"]] 1 " a.xlsx" "T1")
            [[some "h"], [some "B"]] 1 " a.xlsx" "T2") := by
  decide

/-- Claim **C10** (amended: NOMEARQUIVO carries the *whitespace-stripped* basename,
because `to_str_or_none` is applied to the control columns as well).  Every
materialized ledger row carries NOMEARQUIVO = the stripped basename and
DATAIMPLEMENTACAO = the one timestamp string of the ingestion, and both
control cells are non-null: the routing rule only sends names ending in
`.xlsx` here, so the stripped basename is nonempty, and the
`strftime("%Y-%m-%d %H:%M:%S")` timestamp is a nonempty string equal to its
own strip. -/
theorem c10_control_fields (grid : List QRow) (ncols : Nat) (base now : String)
    (h1 : pyStrip base ≠ "") (h2 : pyStrip now = now) (h3 : now ≠ "") :
    ∀ m ∈ qgcMaterialize grid ncols base now,
      m[9]? = some (some (pyStrip base)) ∧ m[10]? = some (some now) := by
  intro m hm
  have h := qgcMaterialize_controls grid ncols base now m hm
  rcases h with ⟨h9, h10⟩
  constructor
  · rw [h9]
    simp [toStrOrNone, h1]
  · rw [h10]
    simp [toStrOrNone, h2, h3]

/-- Witness for C10: a concrete two-row grid ingested as `a.xlsx` at a fixed
timestamp; the single materialized row carries both control cells. -/
theorem c10_control_fields_witness :
    ([some "A", none, none, none, none, none, none, none, none,
        some "a.xlsx", some "2024-01-01 00:00:00"] : QRow)[9]?
        = some (some (pyStrip "a.xlsx"))
  ∧ ([some "A", none, none, none, none, none, none, none, none,
        some "a.xlsx", some "2024-01-01 00:00:00"] : QRow)[10]?
        = some (some "2024-01-01 00:00:00") :=
  c10_control_fields [[some "h"], [some "A"]] 1 "a.xlsx" "2024-01-01 00:00:00"
    (by decide) (by decide) (by decide)
    [some "A", none, none, none, none, none, none, none, none,
      some "a.xlsx", some "2024-01-01 00:00:00"] (by decide)

/-- Claim **C10, counterexample to the claim as stated**: for the triggering object
`" a.xlsx"` (leading space in the basename) the stored NOMEARQUIVO is
`"a.xlsx"`, not the basename itself. -/
theorem c10_counterexample :
    (qgcMaterialize [[some "h"], [some "x"]] 1 " a.xlsx" "2024-01-01 00:00:00").map rowNome
      = [some "a.xlsx"]
  ∧ some "a.xlsx" ≠ some (" a.xlsx" : String) := by
  decide

/-- The failure channel of the ledger staging step.  src/main.py lines 339-371
contain no `raise` and no emptiness check, so the embedding of that code can
only ever return `Except.ok`; the constructor below exists to express the
spec's demanded validation error. -/
inductive QgcFailure where
  | validationError (msg : String)
deriving DecidableEq

/-- The ledger staging step (src/main.py lines 339-371) with its failure
channel made explicit: the code performs no validation, so staging always
succeeds with the materialized rows. -/
def qgcStage (grid : List QRow) (ncols : Nat) (base now : String) :
    Except QgcFailure (List QRow) :=
  Except.ok (qgcMaterialize grid ncols base now)

/-- Claim **C5** (amended: the code does *not* reject an empty sheet).  When the
sheet is empty after removing fully-blank rows, staging succeeds with zero
rows — no validation error is signalled — and the scoped replace still runs:
it deletes every prior row stored under this file name and inserts nothing. -/
theorem c5_empty_sheet_loads_zero_rows (grid : List QRow) (ncols : Nat)
    (base now : String) (table : List QRow) (h : dropAllNaRows grid = []) :
    qgcStage grid ncols base now = Except.ok []
  ∧ ingestQgc table grid ncols base now
      = table.filter (fun r => !(rowNome r == some base)) := by
  have hmat : qgcMaterialize grid ncols base now = [] := by
    unfold qgcMaterialize qgcPrep
    rw [h]
    rfl
  constructor
  · unfold qgcStage
    rw [hmat]
  · unfold ingestQgc scopedReplace
    rw [hmat, List.append_nil]

/-- Witness for C5: a sheet whose two rows are fully blank, ingested as
`relatorio.xlsx` over a table holding one earlier row of the same file. -/
theorem c5_empty_sheet_loads_zero_rows_witness :
    qgcStage [[none, none], [none, none]] 2 "relatorio.xlsx" "T1" = Except.ok []
  ∧ ingestQgc [[some "old", none, none, none, none, none, none, none, none,
        some "relatorio.xlsx", some "T0"]]
      [[none, none], [none, none]] 2 "relatorio.xlsx" "T1"
      = ([[some "old", none, none, none, none, none, none, none, none,
          some "relatorio.xlsx", some "T0"]] : List QRow).filter
          (fun r => !(rowNome r == some "relatorio.xlsx")) :=
  c5_empty_sheet_loads_zero_rows [[none, none], [none, none]] 2 "relatorio.xlsx" "T1"
    [[some "old", none, none, none, none, none, none, none, none,
      some "relatorio.xlsx", some "T0"]] (by decide)

/-- Claim **C5, counterexample to the claim as stated**: for a sheet that is empty
after removing fully-blank rows the resolver does *not* signal a validation
error — staging returns `ok` with zero rows — and the ingestion is not
aborted: the scoped replace deletes the prior generation of rows for that
name and inserts nothing. -/
theorem c5_counterexample :
    qgcStage [[none, none], [none, none]] 2 "relatorio.xlsx" "T1" = Except.ok []
  ∧ (∃ rows, qgcStage [[none, none], [none, none]] 2 "relatorio.xlsx" "T1" = Except.ok rows)
  ∧ ingestQgc [[some "old", none, none, none, none, none, none, none, none,
        some "relatorio.xlsx", some "T0"]]
      [[none, none], [none, none]] 2 "relatorio.xlsx" "T1" = [] := by
  refine ⟨rfl, ⟨[], rfl⟩, by decide⟩

/-- Claim **C2** (amended).  The schema-ensure step only widens the destination
schema toward the fixed 11 QGC columns: every existing column survives in
place (the result starts with the existing schema unchanged), every fixed QGC
column is present afterwards, and nothing outside the existing schema and the
fixed QGC columns is ever added; it never errors.  A genuinely new enrichment
column of a ledger file is *not* added: ledger files are read positionally
(no header), every materialized row is cut to the 11 fixed columns, so extra
source columns are truncated rather than loaded (see the counterexample). -/
theorem c2_schema_widening (ex : List String) :
    ((ensureQgcSchema (some ex)).take ex.length = ex)
  ∧ (∀ c ∈ ex, c ∈ ensureQgcSchema (some ex))
  ∧ (∀ c ∈ QGC_COLUMNS, c ∈ ensureQgcSchema (some ex))
  ∧ (∀ c ∈ ensureQgcSchema (some ex), c ∈ ex ∨ c ∈ QGC_COLUMNS)
  ∧ (∀ grid ncols base now, ∀ m ∈ qgcMaterialize grid ncols base now,
      m.length = QGC_COLUMNS.length) := by
  refine ⟨?_, ?_, ?_, ?_, ?_⟩
  · unfold ensureQgcSchema
    exact List.take_left _ _
  · intro c hc
    unfold ensureQgcSchema
    exact List.mem_append_left _ hc
  · intro c hc
    unfold ensureQgcSchema
    by_cases h : c ∈ ex
    · exact List.mem_append_left _ h
    · apply List.mem_append_right
      apply List.mem_filter.mpr
      refine ⟨hc, ?_⟩
      simpa using h
  · intro c hc
    unfold ensureQgcSchema at hc
    rcases List.mem_append.mp hc with h | h
    · exact Or.inl h
    · exact Or.inr (List.mem_filter.mp h).1
  · intro grid ncols base now m hm
    rw [qgcMaterialize_row_length grid ncols base now m hm]
    rfl

/-- Witness for C2: the schema facts applied at the concrete existing schema
consisting of a strict subset of the QGC columns plus a foreign column. -/
theorem c2_schema_widening_witness :
    ((ensureQgcSchema (some ["GRUPO", "FOREIGN"])).take 2 = ["GRUPO", "FOREIGN"])
  ∧ ("FOREIGN" ∈ ensureQgcSchema (some ["GRUPO", "FOREIGN"]))
  ∧ ("SUBCLASSE" ∈ ensureQgcSchema (some ["GRUPO", "FOREIGN"]))
  ∧ ([some "A", none, none, none, none, none, none, none, none,
        some "a.xlsx", some "T1"] : QRow).length = QGC_COLUMNS.length :=
  ⟨(c2_schema_widening ["GRUPO", "FOREIGN"]).1,
   (c2_schema_widening ["GRUPO", "FOREIGN"]).2.1 "FOREIGN" (by decide),
   (c2_schema_widening ["GRUPO", "FOREIGN"]).2.2.1 "SUBCLASSE" (by decide),
   (c2_schema_widening ["GRUPO", "FOREIGN"]).2.2.2.2 [[some "h"], [some "A"]] 1 "a.xlsx" "T1"
     [some "A", none, none, none, none, none, none, none, none, some "a.xlsx", some "T1"]
     (by decide)⟩

/-- Claim **C2, counterexample to the claim as stated**: a ledger file whose data
rows carry a 10th (enrichment) column.  The destination schema is not widened
by any new column — with the full QGC schema already present the ensure step
adds nothing — and the 10th column's value `"EXTRA"` is truncated away, not
loaded: the single materialized row holds only the 9 positional data cells
plus the two control cells. -/
theorem c2_counterexample :
    ensureQgcSchema (some QGC_COLUMNS) = QGC_COLUMNS
  ∧ qgcMaterialize
      [[some "h1", some "h2", some "h3", some "h4", some "h5",
        some "h6", some "h7", some "h8", some "h9", some "h10"],
       [some "g", some "e", some "f", some "c", some "s",
        some "cr", some "m", some "v", some "d", some "EXTRA"]]
      10 "led.xlsx" "T1"
      = [[some "g", some "e", some "f", some "c", some "s",
          some "cr", some "m", some "v", some "d", some "led.xlsx", some "T1"]] := by
  constructor
  · decide
  · decide

theorem qgcAlignedRow_eq_of_eight (keep : List Nat) (r : QRow) (h8 : keep.length = 8) :
    qgcAlignedRow keep r
      = (keep.map (cellAt r)).take 4 ++ none :: (keep.map (cellAt r)).drop 4 := by
  unfold qgcAlignedRow QGC_BASE_CNT
  simp only [h8]
  norm_num
  omega

theorem qgcAlignedRow_eq_of_nine (keep : List Nat) (r : QRow) (h9 : keep.length = 9) :
    qgcAlignedRow keep r = keep.map (cellAt r) := by
  unfold qgcAlignedRow QGC_BASE_CNT
  simp only [h9]
  norm_num
  omega

/-- Claim **C8**: ledger column tolerance.  When 8 data columns survive the blank
column drop (subclass omitted) every materialized row carries a null
SUBCLASSE cell (index 4); when 9 survive, the SUBCLASSE cell of the i-th row
is populated from that row's value in the fifth kept source column. -/
theorem c8_subclass_tolerance (grid : List QRow) (ncols : Nat) (base now : String) :
    ((qgcKeep grid ncols).length = 8 →
      ∀ m ∈ qgcMaterialize grid ncols base now, m[4]? = some none)
  ∧ ((qgcKeep grid ncols).length = 9 →
      ∀ i m, (qgcMaterialize grid ncols base now)[i]? = some m →
        m[4]? = some (toStrOrNone (cellAt ((qgcPrep grid).getD i [])
          ((qgcKeep grid ncols).getD 4 0)))) := by
  constructor
  · intro h8 m hm
    unfold qgcMaterialize at hm
    rcases List.mem_map.mp hm with ⟨r, _, rfl⟩
    have halign : (qgcAlignedRow (qgcKeep grid ncols) r)[4]? = some none := by
      rw [qgcAlignedRow_eq_of_eight _ _ h8]
      have htk : (((qgcKeep grid ncols).map (cellAt r)).take 4).length = 4 := by
        simp [h8]
      rw [List.getElem?_append_right (by omega)]
      rw [htk]
      simp
    have hlen : (qgcAlignedRow (qgcKeep grid ncols) r).length = 9 := qgcAlignedRow_length _ _
    rw [List.getElem?_map, List.getElem?_append_left (by omega), halign]
    rfl
  · intro h9 i m hm
    unfold qgcMaterialize at hm
    rw [List.getElem?_map] at hm
    rcases Option.map_eq_some'.mp hm with ⟨r, hr, rfl⟩
    have hgetd : (qgcPrep grid).getD i [] = r := by
      rw [List.getD_eq_getElem?_getD, hr]
      rfl
    have halign : qgcAlignedRow (qgcKeep grid ncols) r = (qgcKeep grid ncols).map (cellAt r) :=
      qgcAlignedRow_eq_of_nine _ _ h9
    have hk : (qgcKeep grid ncols)[4]? = some ((qgcKeep grid ncols).getD 4 0) := by
      rw [List.getD_eq_getElem?_getD, List.getElem?_eq_getElem (by omega)]
      rfl
    have hlen : (qgcAlignedRow (qgcKeep grid ncols) r).length = 9 := qgcAlignedRow_length _ _
    rw [List.getElem?_map, List.getElem?_append_left (by omega), hgetd, halign,
      List.getElem?_map, hk]
    rfl

/-- Witness for C8: in the 8-data-column grid's materialized row the
SUBCLASSE cell is null; in the 9-data-column grid's first materialized row it
carries the normalized value of the fifth kept source column. -/
theorem c8_subclass_tolerance_witness :
    ([some "g", some "e", some "f", some "c", none, some "cr", some "m", some "v",
        some "d", some "l8.xlsx", some "T1"] : QRow)[4]? = some none
  ∧ ([some "g", some "e", some "f", some "c", some "s", some "cr", some "m", some "v",
        some "d", some "l9.xlsx", some "T1"] : QRow)[4]?
      = some (toStrOrNone (cellAt ((qgcPrep
          [[some "h1", some "h2", some "h3", some "h4", some "h5", some "h6", some "h7",
            some "h8", some "h9"],
           [some "g", some "e", some "f", some "c", some "s", some "cr", some "m", some "v",
            some "d"]]).getD 0 [])
          ((qgcKeep
          [[some "h1", some "h2", some "h3", some "h4", some "h5", some "h6", some "h7",
            some "h8", some "h9"],
           [some "g", some "e", some "f", some "c", some "s", some "cr", some "m", some "v",
            some "d"]] 9).getD 4 0))) :=
  ⟨(c8_subclass_tolerance
      [[some "h1", some "h2", some "h3", some "h4", some "h5", some "h6", some "h7", some "h8"],
       [some "g", some "e", some "f", some "c", some "cr", some "m", some "v", some "d"]]
      8 "l8.xlsx" "T1").1 (by decide)
      [some "g", some "e", some "f", some "c", none, some "cr", some "m", some "v",
        some "d", some "l8.xlsx", some "T1"] (by decide),
   (c8_subclass_tolerance
      [[some "h1", some "h2", some "h3", some "h4", some "h5", some "h6", some "h7", some "h8",
        some "h9"],
       [some "g", some "e", some "f", some "c", some "s", some "cr", some "m", some "v",
        some "d"]]
      9 "l9.xlsx" "T1").2 (by decide) 0
      [some "g", some "e", some "f", some "c", some "s", some "cr", some "m", some "v",
        some "d", some "l9.xlsx", some "T1"] (by decide)⟩

/-- A cell as `_looks_like_header` sees it: either a Python `str` or any
non-string value (number, timestamp, NaN). -/
inductive PdCell where
  | str (s : String)
  | nonstr
deriving DecidableEq

/-- The `isinstance(v, str) and any(ch.isalpha() for ch in v)` (src/main.py line
245); alphabetic characters restricted to the ASCII range of the model. -/
def isAlphaText : PdCell → Bool
  | .str s => s.toList.any Char.isAlpha
  | .nonstr => false

/-- The `_looks_like_header` (src/main.py lines 241-247): count, with the loop's
accumulator, the cells that are strings containing a letter, and compare
against `max(3, int(len(row0) * 0.4))`.  `int(len * 0.4)` is floored float
multiplication; for every sheet-sized `len` it equals `2 * len / 5` in floor
(natural) division, which is what the model computes. -/
def looksLikeHeader (row0 : List PdCell) : Bool :=
  let texts := row0.foldl (fun acc v => if isAlphaText v then acc + 1 else acc) 0
  decide (max 3 ((2 * row0.length) / 5) ≤ texts)

theorem foldl_count_eq_countP (p : PdCell → Bool) (l : List PdCell) (a : Nat) :
    l.foldl (fun acc v => if p v then acc + 1 else acc) a = a + l.countP p := by
  induction l generalizing a with
  | nil => simp
  | cons x xs ih =>
      by_cases h : p x
      · simp [List.foldl_cons, h, ih, List.countP_cons]
        omega
      · simp [List.foldl_cons, h, ih, List.countP_cons]

/-- Claim **C7**: the header-presence heuristic accepts a first row exactly when at
least `max(3, 40 percent of the cell count, floored)` of its cells are strings
containing at least one alphabetic character. -/
theorem c7_header_heuristic (row0 : List PdCell) :
    looksLikeHeader row0 = true
      ↔ max 3 ((2 * row0.length) / 5) ≤ row0.countP isAlphaText := by
  unfold looksLikeHeader
  rw [foldl_count_eq_countP]
  simp

/-- The kinds of Python exception values a BigQuery job can surface.  Every
constructor models an instance of Python's `Exception`; `aborted` is the
optimistic-concurrency / transaction-aborted contention signal. -/
inductive PyExc where
  | aborted
  | notFound
  | badRequest
  | forbidden
  | generic (msg : String)
deriving DecidableEq

/-- The `g_retry.if_exception_type(Exception)` (src/main.py line 212): the retry
predicate is an isinstance check against `Exception`, which every modelled
exception value satisfies. -/
def retryPredicate (e : PyExc) : Bool :=
  match e with
  | _ => true

/-- The spec's classifier: only the transaction-aborted contention signal is a
transient contention error. -/
def isTransientContention (e : PyExc) : Bool :=
  match e with
  | .aborted => true
  | _ => false

/-- The `_default_retry` delay schedule (src/main.py lines 211-217): the n-th
sleep is `initial * multiplier ^ n` capped at `maximum`, i.e. `2 ^ n` seconds
capped at 10, under a 120-second total deadline. -/
def retryDelay (n : Nat) : Nat :=
  min (1 * 2 ^ n) 10

/-- The `deadline=120.0` of `_default_retry` (src/main.py line 216). -/
def retryDeadline : Nat := 120

/-- Claim **C4** (amended: the predicate does not single out contention).  The
scoped-replace commit (and every job wrapped by `wait_job`) is retried on
*every* exception kind — the predicate `if_exception_type(Exception)` accepts
all of them — with bounded exponential backoff: the first delay is 1 second,
each later delay is the double of the previous one capped at 10 seconds, and
the whole retry loop lives under a 120-second deadline. -/
theorem c4_retry_policy :
    (∀ e : PyExc, retryPredicate e = true)
  ∧ retryDelay 0 = 1
  ∧ (∀ n : Nat, retryDelay (n + 1) = min (2 * retryDelay n) 10)
  ∧ (∀ n : Nat, retryDelay n ≤ 10)
  ∧ retryDeadline = 120 := by
  refine ⟨fun e => rfl, rfl, ?_, ?_, rfl⟩
  · intro n
    unfold retryDelay
    rcases Nat.lt_or_ge n 4 with h | h
    · interval_cases n <;> decide
    · have h1 : (10 : Nat) ≤ 2 ^ n := by
        calc (10 : Nat) ≤ 2 ^ 4 := by decide
        _ ≤ 2 ^ n := Nat.pow_le_pow_right (by decide) h
      have h2 : (10 : Nat) ≤ 2 ^ (n + 1) := by
        calc (10 : Nat) ≤ 2 ^ n := h1
        _ ≤ 2 ^ (n + 1) := Nat.pow_le_pow_right (by decide) (by omega)
      simp [Nat.min_eq_right h1, Nat.min_eq_right h2]
  · intro n
    unfold retryDelay
    simp [Nat.min_le_right]

/-- Claim **C4, counterexample to the claim as stated**: a NotFound error is not a
transient contention signal, yet the retry predicate accepts it, so the
loader retries instead of aborting without retry. -/
theorem c4_counterexample :
    retryPredicate PyExc.notFound = true ∧ isTransientContention PyExc.notFound = false := by
  decide

/-- Split a character list on a separator character (the list-level core of
Python `str.split`): adjacent separators yield empty pieces. -/
def splitOnChar (sep : Char) : List Char → List (List Char)
  | [] => [[]]
  | c :: rest =>
      if c == sep then [] :: splitOnChar sep rest
      else
        match splitOnChar sep rest with
        | [] => [[c]]
        | p :: ps => (c :: p) :: ps

/-- The `os.path.basename` on POSIX: the part after the last slash. -/
def osBasename (s : String) : String :=
  String.mk ((splitOnChar '/' s.toList).getLastD [])

/-- Python `str.lower()` (ASCII repertoire of the model). -/
def pyLower (s : String) : String :=
  String.mk (s.toList.map Char.toLower)

/-- Python `str.endswith(t)`. -/
def strEndsWith (s t : String) : Bool :=
  t.toList.isSuffixOf s.toList

/-- Outcome of running one of the two processing flows (the flows call the
external collaborators, so their outcome is a parameter of the entrypoint
model): normal completion, or a raised Python exception. -/
inductive FlowResult where
  | ok
  | exc (e : PyExc)
deriving DecidableEq

/-- The `str(e)` of a modelled exception value. -/
def excMsg : PyExc → String
  | .aborted => "409 aborted"
  | .notFound => "404 not found"
  | .badRequest => "400 bad request"
  | .forbidden => "403 forbidden"
  | .generic msg => msg

/-- A status row written by `log_status` (src/main.py lines 196-208), with its
destination-width truncation of the message to 1500 characters applied. -/
inductive AuditLog where
  | success (file msg : String)
  | error (file msg : String)
deriving DecidableEq

/-- What `entryPoint` does overall: return normally having attempted the given
audit writes, or propagate a raised exception to the trigger. -/
inductive EntryOutcome where
  | returned (logs : List AuditLog)
  | raised (e : PyExc)
deriving DecidableEq

/-- Python `s[:1500]` as a character-list truncation. -/
def pyTake (s : String) (n : Nat) : String :=
  String.mk (s.toList.take n)

/-- The `entryPoint` (src/main.py lines 416-447): missing or falsy bucket/name is
a silent no-op; a basename equal to `base_legal.xlsx`/`base_geral.xlsx` (case
insensitively) runs the master flow, any other `.xlsx` basename runs the
ledger flow, and both wrap the flow in `try/except Exception` that logs ERROR
and returns; anything else is ignored.  The dataset/status-table bootstrap
before routing is an external collaborator outside this model. -/
def entryPoint (bucket name : Option String) (procResult : FlowResult) : EntryOutcome :=
  match bucket, name with
  | some b, some nm =>
    if b == "" || nm == "" then .returned []
    else if pyLower (osBasename nm) == "base_legal.xlsx"
        || pyLower (osBasename nm) == "base_geral.xlsx" then
      match procResult with
      | .ok => .returned [.success (osBasename nm) "implementado com sucesso"]
      | .exc e => .returned [.error (osBasename nm) (pyTake (excMsg e) 1500)]
    else if strEndsWith (pyLower (osBasename nm)) ".xlsx" then
      match procResult with
      | .ok => .returned [.success (osBasename nm) "implementado com sucesso"]
      | .exc e => .returned [.error (osBasename nm) (pyTake (excMsg e) 1500)]
    else .returned []
  | _, _ => .returned []

/-- Claim **C9**: the entrypoint always returns normally — every processing failure
of a routed event is converted into an ERROR audit record, never re-raised,
so the triggering collaborator is never asked to redeliver. -/
theorem c9_entrypoint_never_raises (bucket name : Option String) (res : FlowResult) :
    (∃ logs, entryPoint bucket name res = EntryOutcome.returned logs)
  ∧ (∀ b nm e, bucket = some b → name = some nm → b ≠ "" → nm ≠ "" →
      strEndsWith (pyLower (osBasename nm)) ".xlsx" = true → res = FlowResult.exc e →
      entryPoint bucket name res
        = EntryOutcome.returned [AuditLog.error (osBasename nm) (pyTake (excMsg e) 1500)]) := by
  constructor
  · rcases bucket with _ | b <;> rcases name with _ | nm <;> cases res <;>
      simp only [entryPoint] <;> (repeat' split) <;> exact ⟨_, rfl⟩
  · intro b nm e hb hn hbne hnmne hx hres
    subst hb
    subst hn
    subst hres
    have hfalsy : (b == "" || nm == "") = false := by
      simp [hbne, hnmne]
    by_cases hm : (pyLower (osBasename nm) == "base_legal.xlsx"
        || pyLower (osBasename nm) == "base_geral.xlsx") = true
    · simp only [entryPoint, hfalsy, hm]
      rfl
    · simp only [entryPoint, hfalsy, Bool.false_eq_true, if_false,
        eq_self_iff_true, hm, hx, if_true]

/-- Witness for C9: a ledger-routed event whose processing raised; the
entrypoint returns normally with one ERROR audit record. -/
theorem c9_entrypoint_never_raises_witness :
    (∃ logs, entryPoint (some "bkt") (some "up/led.xlsx") (FlowResult.exc PyExc.notFound)
        = EntryOutcome.returned logs)
  ∧ entryPoint (some "bkt") (some "up/led.xlsx") (FlowResult.exc PyExc.notFound)
      = EntryOutcome.returned
          [AuditLog.error (osBasename "up/led.xlsx") (pyTake (excMsg PyExc.notFound) 1500)] :=
  ⟨(c9_entrypoint_never_raises (some "bkt") (some "up/led.xlsx")
      (FlowResult.exc PyExc.notFound)).1,
   (c9_entrypoint_never_raises (some "bkt") (some "up/led.xlsx")
      (FlowResult.exc PyExc.notFound)).2 "bkt" "up/led.xlsx" PyExc.notFound rfl rfl
      (by decide) (by decide) (by decide) rfl⟩

/-- The `BASE_FIXED_COLUMNS` (src/main.py lines 25-44): the fixed STRING columns
of the `base_geral` master table, in declaration order. -/
def BASE_FIXED_COLUMNS : List String :=
  ["empresa", "id", "sem_arquivos_digitais", "com_qgc_feito", "tipo_de_sociedade",
   "capital_aberto", "setor_de_atuacao", "subsetor", "estado", "cidade", "estado2",
   "vara", "vara_especializada", "pericia_previa", "empresa_pericia_previa",
   "advogado", "consultoria_assessoria_financeira_reestruturacao",
   "substituicao_do_aj", "destituicao_do_aj",
   "_1o_administrador_judicial", "_2o_administrador_judicial", "_3o_administrador_judicial",
   "tipo", "consolidacao_substancial",
   "tamanho_aproximado_da_rj_valor_da_divida_declarado_nos_documentos_iniciais",
   "passivo_apurado_pelo_aj_no_qgc_do_art_7o_2o",
   "modalidade_de_remuneracao_do_aj", "remuneracao_aj_do_passivo",
   "remuneracao_aj_valor_total",
   "remuneracao_aj_r_parcelas_mensais_honorarios_provisorios",
   "remuneracao_aj_r_parcelas_mensais_honorarios_definitivos",
   "quantidade_de_assembleias_para_aprovacao",
   "houve_apresentacao_de_plano_pelos_credores", "n_processo",
   "link_processo", "link_logo", "link_ri_outros", "termos", "informacoes",
   "data_de_manipulacao", "segredo_de_justica", "processo_fisico_ou_digital",
   "revisao", "status_do_processo"]

/-- The positional fallback mapping of the headerless master path
(src/main.py line 276): source index `i` maps to the i-th fixed column, for
`i` up to `min(df.shape[1], len(BASE_FIXED_COLUMNS))`. -/
def headerMappingPositional (ncols : Nat) : List (Nat × String) :=
  (List.range (min ncols BASE_FIXED_COLUMNS.length)).map
    (fun i => (i, BASE_FIXED_COLUMNS.getD i ""))

/-- The fill loop of `process_base_fixed` (src/main.py lines 284-286) seen
from one target column `c` of one row `r`: the last mapping entry whose
target is `c` and whose source index is in range wins; a column no entry
fills stays None (line 281). -/
def stdCell (mapping : List (Nat × String)) (ncols : Nat) (r : QRow) (c : String) : Cell :=
  match (mapping.filter (fun p => p.2 == c && decide (p.1 < ncols))).getLast? with
  | some p => cellAt r p.1
  | none => none

/-- The headerless branch of `process_base_fixed` (src/main.py lines 270-290):
read the whole sheet without header, drop fully-blank rows — the first row is
kept, the code comment says so explicitly — then build, for every row, the
44-column target row by the positional mapping, and convert every cell with
`to_str_or_none`. -/
def baseFixedHeaderless (grid : List QRow) (ncols : Nat) : List QRow :=
  (dropAllNaRows grid).map
    (fun r => BASE_FIXED_COLUMNS.map
      (fun c => toStrOrNone (stdCell (headerMappingPositional ncols) ncols r c)))

/-- What the spec's words describe for the headerless master path: the same
positional alignment, but applied only after *discarding the first remaining
row* as a human caption.  Used to compare the code against the claim. -/
def baseFixedHeaderlessSpec (grid : List QRow) (ncols : Nat) : List QRow :=
  ((dropAllNaRows grid).drop 1).map
    (fun r => (List.range BASE_FIXED_COLUMNS.length).map
      (fun j => if j < ncols then toStrOrNone (cellAt r j) else none))

theorem base_fixed_cols_nodup : BASE_FIXED_COLUMNS.Nodup := by decide

theorem range_filter_beq (m j : Nat) :
    (List.range m).filter (fun i => i == j) = if j < m then [j] else [] := by
  induction m with
  | zero => simp
  | succ m ih =>
      rw [List.range_succ, List.filter_append, ih]
      by_cases h : j = m
      · subst h
        simp [Nat.lt_irrefl, Nat.lt_succ_self]
      · have hne : (m == j) = false := by
          simp [Ne.symm h]
        by_cases h2 : j < m
        · simp [List.filter, hne, h2, Nat.lt_succ_of_lt h2]
        · have h3 : ¬ j < m + 1 := by omega
          simp [List.filter, hne, h2, h3]

theorem stdCell_positional (ncols j : Nat) (r : QRow) (hj : j < BASE_FIXED_COLUMNS.length) :
    stdCell (headerMappingPositional ncols) ncols r (BASE_FIXED_COLUMNS.getD j "")
      = if j < ncols then cellAt r j else none := by
  unfold stdCell headerMappingPositional
  have hfil : ((List.range (min ncols BASE_FIXED_COLUMNS.length)).map
        (fun i => (i, BASE_FIXED_COLUMNS.getD i ""))).filter
        (fun p => p.2 == BASE_FIXED_COLUMNS.getD j "" && decide (p.1 < ncols))
      = ((List.range (min ncols BASE_FIXED_COLUMNS.length)).filter
        (fun i => i == j)).map (fun i => (i, BASE_FIXED_COLUMNS.getD i "")) := by
    rw [List.filter_map]
    apply congrArg
    apply List.filter_congr
    intro i hi
    have hilt : i < min ncols BASE_FIXED_COLUMNS.length := List.mem_range.mp hi
    have hin : i < ncols := by omega
    have hib : i < BASE_FIXED_COLUMNS.length := by omega
    simp only [Function.comp, hin, decide_True, Bool.and_true]
    rw [List.getD_eq_getElem _ _ hib, List.getD_eq_getElem _ _ hj]
    by_cases he : i = j
    · subst he
      simp
    · have h1 : (BASE_FIXED_COLUMNS[i] == BASE_FIXED_COLUMNS[j]) = false := by
        apply beq_eq_false_iff_ne.mpr
        intro hcc
        exact he ((List.Nodup.getElem_inj_iff base_fixed_cols_nodup).mp hcc)
      have h2 : (i == j) = false := by simp [he]
      rw [h1, h2]
  rw [hfil, range_filter_beq]
  by_cases hjn : j < ncols
  · have : j < min ncols BASE_FIXED_COLUMNS.length := by omega
    simp [this, hjn]
  · have : ¬ j < min ncols BASE_FIXED_COLUMNS.length := by omega
    simp [this, hjn]

/-- Claim **C3** (amended: the headerless master path keeps the first row — the
code comment at src/main.py line 271 says it does *not* discard it).  Every
row surviving the blank-row drop, the first included, is aligned
positionally: target column `j` receives the row's cell `j` (normalized)
when `j` is within the sheet's column count, and null otherwise — so missing
canonical fields are padded with nulls on the right and extra source columns
beyond the 44 canonical fields are truncated. -/
theorem c3_positional_fallback (grid : List QRow) (ncols : Nat) :
    (baseFixedHeaderless grid ncols).length = (dropAllNaRows grid).length
  ∧ (∀ i j, i < (dropAllNaRows grid).length → j < BASE_FIXED_COLUMNS.length →
      ((baseFixedHeaderless grid ncols).getD i []).getD j none
        = if j < ncols then toStrOrNone (cellAt ((dropAllNaRows grid).getD i []) j)
          else none) := by
  constructor
  · unfold baseFixedHeaderless
    exact List.length_map _ _
  · intro i j hi hj
    have hrow : (baseFixedHeaderless grid ncols).getD i []
        = BASE_FIXED_COLUMNS.map
          (fun c => toStrOrNone (stdCell (headerMappingPositional ncols) ncols
            ((dropAllNaRows grid).getD i []) c)) := by
      unfold baseFixedHeaderless
      rw [List.getD_eq_getElem _ _ (by simpa using hi), List.getElem_map,
        List.getD_eq_getElem _ _ hi]
    rw [hrow, List.getD_eq_getElem _ _ (by simpa using hj), List.getElem_map]
    have hcol : BASE_FIXED_COLUMNS[j] = BASE_FIXED_COLUMNS.getD j "" :=
      (List.getD_eq_getElem _ _ hj).symm
    rw [hcol, stdCell_positional _ _ _ hj]
    by_cases hjn : j < ncols
    · simp [hjn]
    · simp [hjn, toStrOrNone]

/-- Witness for C3 at a concrete one-column sheet: the caption row `"CAPTION"`
is kept and lands, positionally normalized, in the first canonical field. -/
theorem c3_positional_fallback_witness :
    (baseFixedHeaderless [[some "CAPTION"], [some "v1"]] 1).length
      = (dropAllNaRows [[some "CAPTION"], [some "v1"]]).length
  ∧ ((baseFixedHeaderless [[some "CAPTION"], [some "v1"]] 1).getD 0 []).getD 0 none
      = if 0 < 1 then
          toStrOrNone (cellAt ((dropAllNaRows [[some "CAPTION"], [some "v1"]]).getD 0 []) 0)
        else none :=
  ⟨(c3_positional_fallback [[some "CAPTION"], [some "v1"]] 1).1,
   (c3_positional_fallback [[some "CAPTION"], [some "v1"]] 1).2 0 0
     (by decide) (by decide)⟩

/-- Claim **C3, counterexample to the claim as stated**: the headerless master path
does not discard the first row.  On a sheet whose first row is the caption
`"CAPTION"`, the code materializes two rows — caption included, landing in
the first canonical field — while the spec's discard-then-align description
materializes one. -/
theorem c3_counterexample :
    baseFixedHeaderless [[some "CAPTION"], [some "v1"]] 1
      ≠ baseFixedHeaderlessSpec [[some "CAPTION"], [some "v1"]] 1
  ∧ (baseFixedHeaderless [[some "CAPTION"], [some "v1"]] 1).length = 2
  ∧ (baseFixedHeaderlessSpec [[some "CAPTION"], [some "v1"]] 1).length = 1
  ∧ ((baseFixedHeaderless [[some "CAPTION"], [some "v1"]] 1).getD 0 []).getD 0 none
      = some "CAPTION" := by
  refine ⟨by decide, by decide, by decide, by decide⟩

/-- The `s.replace("R$", "rs")` (src/main.py line 85): left-to-right,
non-overlapping replacement of the two-character pattern. -/
def replaceRS : List Char → List Char
  | 'R' :: '$' :: rest => 'r' :: 's' :: replaceRS rest
  | c :: rest => c :: replaceRS rest
  | [] => []

/-- The single-character replacements of `_slug` (src/main.py lines 86-90):
`º`/`°` to `o`, `%` to `pct`, `/` to `_`, `-` to a space, `§` to `s`.  The
sequential Python `replace` calls are equivalent to this one simultaneous
pass because no replacement output contains a later pattern character. -/
def tokenSub (c : Char) : List Char :=
  if c == 'º' || c == '°' then ['o']
  else if c == '%' then ['p', 'c', 't']
  else if c == '/' then ['_']
  else if c == '-' then [' ']
  else if c == '§' then ['s']
  else [c]

/-- The `unicodedata.normalize("NFKD", s)` followed by dropping combining marks
(src/main.py lines 91-92), restricted to the Latin repertoire the job's
Portuguese headers use; characters outside the table are unchanged. -/
def nfkdBase (c : Char) : Char :=
  match c with
  | 'À' | 'Á' | 'Â' | 'Ã' | 'Ä' | 'Å' => 'A'
  | 'à' | 'á' | 'â' | 'ã' | 'ä' | 'å' => 'a'
  | 'Ç' => 'C'
  | 'ç' => 'c'
  | 'È' | 'É' | 'Ê' | 'Ë' => 'E'
  | 'è' | 'é' | 'ê' | 'ë' => 'e'
  | 'Ì' | 'Í' | 'Î' | 'Ï' => 'I'
  | 'ì' | 'í' | 'î' | 'ï' => 'i'
  | 'Ñ' => 'N'
  | 'ñ' => 'n'
  | 'Ò' | 'Ó' | 'Ô' | 'Õ' | 'Ö' => 'O'
  | 'ò' | 'ó' | 'ô' | 'õ' | 'ö' => 'o'
  | 'Ù' | 'Ú' | 'Û' | 'Ü' => 'U'
  | 'ù' | 'ú' | 'û' | 'ü' => 'u'
  | 'Ý' => 'Y'
  | 'ý' | 'ÿ' => 'y'
  | 'ª' => 'a'
  | '¹' => '1'
  | '²' => '2'
  | '³' => '3'
  | _ => c

/-- The character classification loop of `_slug` (src/main.py lines 93-100):
alphanumeric characters are lowercased, every other character — space and
underscore included — becomes an underscore. -/
def slugChar (c : Char) : Char :=
  if c.isAlphanum then c.toLower else '_'

/-- The `"_".join(...)` over the retained pieces (src/main.py line 102). -/
def joinU : List (List Char) → List Char
  | [] => []
  | [p] => p
  | p :: ps => p ++ '_' :: joinU ps

/-- The `"_".join(filter(None, s.split("_")))` (src/main.py line 102): split on
underscores, drop the empty pieces, re-join — collapsing runs of underscores
and stripping them from both ends. -/
def collapseU (cs : List Char) : List Char :=
  joinU ((splitOnChar '_' cs).filter (fun p => !p.isEmpty))

/-- The `_slug` (src/main.py lines 72-103) on a character list: strip, replace
`R$`, apply the single-character token replacements, fold diacritics, then
classify characters and collapse the underscore runs. -/
def slugL (cs : List Char) : List Char :=
  collapseU ((((replaceRS (pyStripL cs)).map tokenSub).flatten).map
    (fun c => slugChar (nfkdBase c)))

/-- The `_slug` (src/main.py lines 72-103). -/
def slug (s : String) : String :=
  String.mk (slugL s.toList)

/-- True when the list contains two adjacent underscores. -/
def hasDoubleU : List Char → Bool
  | [] => false
  | [_] => false
  | a :: b :: rest => (a == '_' && b == '_') || hasDoubleU (b :: rest)

/-- True when the list neither starts nor ends with an underscore. -/
def okEdges (cs : List Char) : Bool :=
  !(cs.head? == some '_') && !(cs.getLast? == some '_')

theorem splitOnChar_ne_nil (sep : Char) (cs : List Char) : splitOnChar sep cs ≠ [] := by
  cases cs with
  | nil => simp [splitOnChar]
  | cons c rest =>
      unfold splitOnChar
      by_cases h : (c == sep) = true
      · simp [h]
      · simp only [h]
        rcases hsp : splitOnChar sep rest with _ | ⟨p, ps⟩
        · simp
        · simp

theorem splitOnChar_no_sep (sep : Char) (cs : List Char) :
    ∀ p ∈ splitOnChar sep cs, sep ∉ p := by
  induction cs with
  | nil =>
      intro p hp
      simp [splitOnChar] at hp
      simp [hp]
  | cons c rest ih =>
      intro p hp
      unfold splitOnChar at hp
      by_cases h : (c == sep) = true
      · simp only [h, if_true] at hp
        rcases List.mem_cons.mp hp with h1 | h1
        · simp [h1]
        · exact ih p h1
      · simp only [h, if_false] at hp
        have hc : c ≠ sep := by
          intro hcc
          exact h (by simp [hcc])
        rcases hsp : splitOnChar sep rest with _ | ⟨q, qs⟩
        · exact absurd hsp (splitOnChar_ne_nil sep rest)
        · rw [hsp] at hp
          rcases List.mem_cons.mp hp with h1 | h1
          · subst h1
            intro hmem
            rcases List.mem_cons.mp hmem with h2 | h2
            · exact hc h2.symm
            · exact ih q (by rw [hsp]; exact List.mem_cons_self q qs) h2
          · exact ih p (by rw [hsp]; exact List.mem_cons_of_mem q h1)

theorem hasDoubleU_append (p t : List Char) (hp : '_' ∉ p) (ht : hasDoubleU t = false) :
    hasDoubleU (p ++ t) = false := by
  induction p with
  | nil => simpa using ht
  | cons c p' ih =>
      have hc : (c == '_') = false := by
        simp only [beq_eq_false_iff_ne]
        intro hcc
        exact hp (by simp [hcc])
      have hp' : '_' ∉ p' := fun hm => hp (List.mem_cons_of_mem c hm)
      cases p' with
      | nil =>
          cases t with
          | nil => simp [hasDoubleU]
          | cons d t' =>
              show hasDoubleU (c :: d :: t') = false
              unfold hasDoubleU
              simp [hc]
              simpa using ht
      | cons c' p'' =>
          show hasDoubleU (c :: c' :: (p'' ++ t)) = false
          unfold hasDoubleU
          simp [hc]
          simpa using ih hp'

theorem joinU_ne_nil (q : List Char) (ps : List (List Char)) (hq : q ≠ []) :
    joinU (q :: ps) ≠ [] := by
  cases ps with
  | nil => simpa [joinU] using hq
  | cons r ps' =>
      show q ++ '_' :: joinU (r :: ps') ≠ []
      simp

theorem joinU_head (q : List Char) (ps : List (List Char)) (hq : q ≠ []) :
    (joinU (q :: ps)).head? = q.head? := by
  cases ps with
  | nil => rfl
  | cons r ps' =>
      show (q ++ '_' :: joinU (r :: ps')).head? = q.head?
      rcases q with _ | ⟨c, q'⟩
      · exact absurd rfl hq
      · rfl

theorem joinU_good (ps : List (List Char)) (h : ∀ p ∈ ps, p ≠ [] ∧ '_' ∉ p) :
    hasDoubleU (joinU ps) = false ∧ okEdges (joinU ps) = true := by
  induction ps with
  | nil => simp [joinU, hasDoubleU, okEdges]
  | cons p ps ih =>
      rcases h p (List.mem_cons_self p ps) with ⟨hpne, hpu⟩
      cases ps with
      | nil =>
          constructor
          · show hasDoubleU (joinU [p]) = false
            have hj : joinU [p] = p := rfl
            rw [hj]
            have := hasDoubleU_append p [] hpu (by rfl)
            simpa using this
          · show okEdges (joinU [p]) = true
            have hj : joinU [p] = p := rfl
            rw [hj]
            unfold okEdges
            rcases hhd : p.head? with _ | c
            · simp at hhd
              exact absurd hhd hpne
            · have hc : c ∈ p := List.mem_of_mem_head? hhd
              have hcne : c ≠ '_' := fun hh => hpu (hh ▸ hc)
              rcases hlt : p.getLast? with _ | d
              · rw [List.getLast?_eq_none_iff] at hlt
                exact absurd hlt hpne
              · have hd : d ∈ p := List.mem_of_mem_getLast? hlt
                have hdne : d ≠ '_' := fun hh => hpu (hh ▸ hd)
                simp [hhd, hlt, hcne, hdne]
      | cons q ps' =>
          have hih := ih (fun r hr => h r (List.mem_cons_of_mem p hr))
          rcases h q (List.mem_cons_of_mem p (List.mem_cons_self q ps')) with ⟨hqne, hqu⟩
          have hjoin : joinU (p :: q :: ps') = p ++ '_' :: joinU (q :: ps') := rfl
          have hhead : (joinU (q :: ps')).head? ≠ some '_' := by
            rw [joinU_head q ps' hqne]
            rcases hhd : q.head? with _ | c
            · simp at hhd
              exact absurd hhd hqne
            · have hc : c ∈ q := List.mem_of_mem_head? hhd
              have : c ≠ '_' := fun hh => hqu (hh ▸ hc)
              simp [this]
          constructor
          · rw [hjoin]
            apply hasDoubleU_append p _ hpu
            rcases hj : joinU (q :: ps') with _ | ⟨c, t'⟩
            · simp [hasDoubleU]
            · have hcne : (c == '_') = false := by
                rw [hj] at hhead
                simp only [List.head?] at hhead
                simp only [beq_eq_false_iff_ne]
                intro hcc
                exact hhead (by rw [hcc])
              show hasDoubleU ('_' :: c :: t') = false
              unfold hasDoubleU
              simp [hcne]
              have := hih.1
              rw [hj] at this
              simpa using this
          · unfold okEdges
            rw [hjoin, Bool.and_eq_true]
            constructor
            · rcases hhd : p.head? with _ | c
              · simp at hhd
                exact absurd hhd hpne
              · rcases p with _ | ⟨c0, p0⟩
                · exact absurd rfl hpne
                · simp only [List.head?] at hhd
                  have hc : c ∈ c0 :: p0 := by
                    cases hhd
                    exact List.mem_cons_self _ _
                  have : c ≠ '_' := fun hh => hpu (hh ▸ hc)
                  simp only [List.cons_append, List.head?]
                  cases hhd
                  simp [this]
            · have hne : joinU (q :: ps') ≠ [] := joinU_ne_nil q ps' hqne
              rw [List.getLast?_append]
              rcases hlt : (joinU (q :: ps')).getLast? with _ | d
              · rw [List.getLast?_eq_none_iff] at hlt
                exact absurd hlt hne
              · have := hih.2
                unfold okEdges at this
                rw [hlt] at this
                have hdne : (some d == some '_') = false := by
                  rw [Bool.and_eq_true] at this
                  rcases this with ⟨_, h2⟩
                  simpa using h2
                have hgl : ('_' :: joinU (q :: ps')).getLast? = some d := by
                  rw [List.getLast?_cons, hlt]
                  simp
                simp [hgl]
                simpa using hdne

theorem collapseU_invariants (cs : List Char) :
    hasDoubleU (collapseU cs) = false ∧ okEdges (collapseU cs) = true := by
  unfold collapseU
  apply joinU_good
  intro p hp
  rcases List.mem_filter.mp hp with ⟨hmem, hbool⟩
  constructor
  · intro hnil
    subst hnil
    simp at hbool
  · exact splitOnChar_no_sep '_' cs p hmem

/-- Claim **C6** (amended: there is no digit-prefix step and no empty-result
placeholder in the code — the alias table's own keys, such as
`1o_administrador_judicial`, start with digits).  The normalizer is a pure
function of the raw header string that strips the input, applies the domain
token replacements (`R$` to `rs`, `º`/`°` to `o`, `%` to `pct`, `§` to `s`),
folds diacritics, lowercases alphanumerics, turns every other character into
an underscore and collapses: the output never contains two adjacent
underscores and never starts or ends with one; a digit-leading result is
left as is, and the empty input maps to the empty string. -/
theorem c6_header_normalizer :
    (∀ s : String, hasDoubleU (slug s).toList = false ∧ okEdges (slug s).toList = true)
  ∧ slug "1º ADMINISTRADOR JUDICIAL" = "1o_administrador_judicial"
  ∧ slug "REMUNERAÇÃO AJ (% DO PASSIVO)" = "remuneracao_aj_pct_do_passivo"
  ∧ slug "VARA ESPECIALIZADA?" = "vara_especializada"
  ∧ slug "  R$ Valor/Total - 10%  " = "rs_valor_total_10pct"
  ∧ slug "" = "" := by
  refine ⟨?_, by decide, by decide, by decide, by decide, by decide⟩
  intro s
  exact collapseU_invariants _

/-- Claim **C6, counterexample to the claim as stated**: the slug of `1a` starts
with the digit `1` — no underscore is prefixed — and the slug of the empty
string is the empty string, not a fallback placeholder name. -/
theorem c6_counterexample :
    slug "1a" = "1a"
  ∧ (slug "1a").toList.head? = some '1'
  ∧ slug "" = "" := by
  decide
